import Mathlib

/-!
Verification development for the Go package `oniontransport`
(file `onion_transport.go`): a libp2p transport that dials and listens
over Tor onion services.

The Go code is shallowly embedded: strings are `List Char`, byte slices
are `List Nat`, Go's multiple-return errors become `Except`/`Outcome`,
external collaborators (tor control connection, proxy dialer, connection
upgrader, filesystem) are environment records of functions, and run-time
panics (nil dereference, index out of range) are an explicit `Outcome`
constructor.
-/

namespace OnionTransportSpec

abbrev GoError := String

abbrev Str := List Char

abbrev Bytes := List Nat

def strChars (s : String) : Str := s.data

/-- Result of a Go computation: a value, a returned error, or a run-time
panic. -/
inductive Outcome (α : Type) where
  | ok : α → Outcome α
  | error : GoError → Outcome α
  | panic : String → Outcome α
deriving DecidableEq

def outcomeIsError {α : Type} : Outcome α → Bool
  | .error _ => true
  | _ => false

def exceptIsOk {ε α : Type} : Except ε α → Bool
  | .ok _ => true
  | .error _ => false

/-! ### String primitives used by the Go code -/

/-- Models `strings.Split(s, sep)` for a single-character separator. -/
def splitOnChar (sep : Char) : Str → List Str
  | [] => [[]]
  | c :: rest =>
    if c = sep then [] :: splitOnChar sep rest
    else
      match splitOnChar sep rest with
      | [] => [[c]]
      | p :: ps => (c :: p) :: ps

/-- Models `strings.ToUpper` restricted to ASCII (the decode alphabet and
the separators the code cares about are all ASCII). -/
def toUpperGo (c : Char) : Char :=
  if 'a' ≤ c ∧ c ≤ 'z' then Char.ofNat (c.toNat - 32) else c

def upperStr (s : Str) : Str := s.map toUpperGo

def startsWith : Str → Str → Bool
  | [], _ => true
  | _ :: _, [] => false
  | p :: ps, c :: cs => p = c && startsWith ps cs

/-- Models `strings.HasSuffix(s, pat)`. -/
def endsWithStr (pat s : Str) : Bool := startsWith pat.reverse s.reverse

/-- Models `strings.Replace(s, pat, "", 1)`: remove the first occurrence
of `pat`. -/
def removeFirst (pat : Str) : Str → Str
  | [] => []
  | c :: rest =>
    if startsWith pat (c :: rest) then (c :: rest).drop pat.length
    else c :: removeFirst pat rest

/-- Models `filepath.Base` for slash-separated paths without a trailing
slash (the only shape the key walk produces). -/
def basename (p : Str) : Str := (splitOnChar '/' p).getLastD []

/-! ### `strconv.Atoi` -/

def digitVal (c : Char) : Option Nat :=
  if '0' ≤ c ∧ c ≤ '9' then some (c.toNat - 48) else none

def digitsValAux : Nat → Str → Option Nat
  | acc, [] => some acc
  | acc, c :: rest =>
    match digitVal c with
    | none => none
    | some d => digitsValAux (acc * 10 + d) rest

/-- Value of a non-empty all-digit string, `none` otherwise. -/
def digitsVal : Str → Option Nat
  | [] => none
  | l => digitsValAux 0 l

/-- `2 ^ 63 - 1`, the largest Go `int` value. -/
def goMaxInt : Int := 9223372036854775807

/-- `-(2 ^ 63)`, the smallest Go `int` value. -/
def goMinInt : Int := -9223372036854775808

/-- Models `strconv.Atoi`: optional sign, non-empty base-10 digits,
64-bit range check (Go returns `ErrRange` outside the `int` range). -/
def atoi (s : Str) : Except GoError Int :=
  match s with
  | [] => .error "invalid syntax"
  | c :: rest =>
    let digits := if c = '-' ∨ c = '+' then rest else c :: rest
    match digitsVal digits with
    | none => .error "invalid syntax"
    | some n =>
      let v : Int := if c = '-' then -(n : Int) else (n : Int)
      if v < goMinInt ∨ goMaxInt < v then .error "value out of range"
      else .ok v

/-! ### `base32.StdEncoding.DecodeString` (RFC 4648 with '=' padding)

Only decode success/failure matters to the transport, so the model
returns a `Bool`; it follows Go's `decode` loop: 8-character quanta,
padding `=` admissible only when at least two data symbols precede it
and fewer than eight characters remain, all remaining checked positions
must be `=`, and 1, 3 or 6 data symbols before padding are invalid. -/

def b32DecodeMap (c : Char) : Option Nat :=
  if 'A' ≤ c ∧ c ≤ 'Z' then some (c.toNat - 65)
  else if '2' ≤ c ∧ c ≤ '7' then some (c.toNat - 50 + 26)
  else none

/-- One quantum of Go's base32 decode loop: consume characters starting
at in-quantum index `j`; `some (e, rest)` means no error, where `e`
records whether padding ended the input and `rest` is the unconsumed
input. -/
def decodeQuantum : Str → Nat → Option (Bool × Str)
  | [], _ => none
  | c :: rest, j =>
    if c = '=' ∧ 2 ≤ j ∧ rest.length < 8 then
      if rest.length + j < 7 then none
      else if (List.range (7 - j)).any
          (fun k => decide (k < rest.length) && decide (rest.getD k '=' ≠ '=')) then none
      else if j = 3 ∨ j = 6 then none
      else some (true, [])
    else
      match b32DecodeMap c with
      | none => none
      | some _ => if j + 1 = 8 then some (false, rest) else decodeQuantum rest (j + 1)

def base32DecodeOkAux : Nat → Str → Bool
  | _, [] => true
  | 0, _ :: _ => false
  | fuel + 1, c :: rest =>
    match decodeQuantum (c :: rest) 0 with
    | none => false
    | some (true, _) => true
    | some (false, rem) => base32DecodeOkAux fuel rem

/-- Each successful quantum consumes at least one character, so fuel
equal to the length always suffices. -/
def base32DecodeOk (s : Str) : Bool := base32DecodeOkAux s.length s

/-! ### Multiaddr model

A multiaddr is its list of components; each component carries its
protocol code and its string value.  Protocol names come from the
go-multiaddr protocol table, restricted to the codes this transport
mentions. -/

def P_ONION : Nat := 444

def P_TCP : Nat := 6

def P_IP4 : Nat := 4

def P_IP6 : Nat := 41

structure Component where
  code : Nat
  value : Str
deriving DecidableEq

abbrev Multiaddr := List Component

def protocolName (code : Nat) : String :=
  if code = 444 then "onion"
  else if code = 6 then "tcp"
  else if code = 4 then "ip4"
  else if code = 41 then "ip6"
  else "other"

/-- Models `Multiaddr.Protocols()`: the protocol codes in order. -/
def protocols (a : Multiaddr) : List Nat := a.map Component.code

/-- Models `Multiaddr.ValueForProtocol(code)`: value of the first
component with the given code, error if absent. -/
def valueForProtocol (a : Multiaddr) (code : Nat) : Except GoError Str :=
  match a.find? (fun comp => comp.code == code) with
  | some comp => .ok comp.value
  | none => .error "protocol not found in multiaddr"

/-! ### `IsValidOnionMultiAddr`

The second result component is the list of lines written to standard
output: the Go code contains `fmt.Println(split[0])` on the
wrong-identifier-length branch. -/

def isValidOnionMultiAddrE (a : Multiaddr) : Bool × List Str :=
  if (protocols a).length ≠ 1 then (false, [])
  else if protocolName ((protocols a).headD 0) ≠ "onion" then (false, [])
  else
    match valueForProtocol a P_ONION with
    | .error _ => (false, [])
    | .ok addr =>
      let split := splitOnChar ':' addr
      if split.length ≠ 2 then (false, [])
      else if (split.getD 0 []).length ≠ 16 then (false, [split.getD 0 []])
      else if base32DecodeOk (upperStr (split.getD 0 [])) = false then (false, [])
      else
        match atoi (split.getD 1 []) with
        | .error _ => (false, [])
        | .ok i => if 65536 ≤ i ∨ i < 1 then (false, []) else (true, [])

def IsValidOnionMultiAddr (a : Multiaddr) : Bool := (isValidOnionMultiAddrE a).1

/-- A single-component onion service address with the given identifier
and port text, as the spec's "address built from S and P". -/
def mkOnionAddr (ident pstr : Str) : Multiaddr := [⟨P_ONION, ident ++ ':' :: pstr⟩]

/-! ### `mafmt.TCP.Matches` (whyrusleeping/mafmt)

`TCP = And(Or(Base(P_IP4), Base(P_IP6)), Base(P_TCP))`; `Matches` runs
the pattern over the protocol-code list and requires full consumption. -/

def baseMatch (code : Nat) : List Nat → Option (List Nat)
  | [] => none
  | p :: rest => if p = code then some rest else none

def ipMatch (pcs : List Nat) : Option (List Nat) :=
  match baseMatch P_IP4 pcs with
  | some rem => some rem
  | none => baseMatch P_IP6 pcs

def tcpPatMatch (pcs : List Nat) : Option (List Nat) :=
  match ipMatch pcs with
  | some rem => baseMatch P_TCP rem
  | none => none

def tcpMatches (a : Multiaddr) : Bool :=
  match tcpPatMatch (protocols a) with
  | some rem => rem.isEmpty
  | none => false

/-! ### Transport data model

`OnionTransport` fields that participate in the claims.  Pointers that
the Go code takes to never-mutated locations (a listener's `laddr`
field, `Dial`'s `raddr` argument, `Accept`'s local `raddr` variable)
are modelled by value; the one genuinely mutable pointee — the
transport's `laddr` slot, written by `Listen` — is modelled by an
explicit reference constructor so that aliasing is observable. -/

structure RsaPrivateKey where
  keyId : Nat
deriving DecidableEq

structure RawListener where
  lid : Nat
deriving DecidableEq

structure NetAddr where
  network : Str
  address : Str
deriving DecidableEq

structure RawConn where
  remoteAddr : NetAddr
  cid : Nat
deriving DecidableEq

structure Upgrader where
  uid : Nat
deriving DecidableEq

structure UpgradedConn where
  ucid : Nat
deriving DecidableEq

abbrev KeyMap := List (Str × RsaPrivateKey)

def mapLookup (m : KeyMap) (k : Str) : Option RsaPrivateKey :=
  match m.find? (fun e => e.1 == k) with
  | some e => some e.2
  | none => none

/-- Go map insertion: overwrite any existing binding for the name. -/
def mapInsert (m : KeyMap) (k : Str) (v : RsaPrivateKey) : KeyMap :=
  m.filter (fun e => e.1 ≠ k) ++ [(k, v)]

structure TransportState where
  keys : KeyMap
  onlyOnion : Bool
  laddr : Option Multiaddr
  upgrader : Option Upgrader
deriving DecidableEq

/-- What an `OnionConn`'s `laddr` field points at: either the owning
transport's mutable `laddr` slot (`&t.laddr`, taken by `Dial`), or a
location that is never written again after the pointer is taken. -/
inductive AddrPtr where
  | transportSlot : AddrPtr
  | value : Multiaddr → AddrPtr
deriving DecidableEq

structure OnionConn where
  rawConn : Option RawConn
  transport : Option Unit
  laddr : AddrPtr
  raddr : Multiaddr
deriving DecidableEq

/-- `OnionConn.LocalMultiaddr` dereferences `c.laddr`; through the
transport-slot pointer it reads the transport's current `laddr`
(`none` models the nil multiaddr before any `Listen`). -/
def OnionConn.LocalMultiaddr (c : OnionConn) (t : TransportState) : Option Multiaddr :=
  match c.laddr with
  | .transportSlot => t.laddr
  | .value m => some m

structure OnionListener where
  port : Nat
  key : RsaPrivateKey
  laddr : Multiaddr
  listener : RawListener
  transport : Option Unit
  upgrader : Option Upgrader
deriving DecidableEq

/-- Go conversion `uint16(port)` on an `int` value. -/
def uint16 (i : Int) : Nat := (i % 65536).toNat

/-! ### `loadKeys` and `NewOnionTransport` -/

structure LoadEnv where
  pemDecode : Bytes → Option Bytes
  pkcs1Decode : Bytes → Except GoError RsaPrivateKey

/-- `filepath.Walk` result: Go's `loadKeys` returns the keys map built
so far together with any walk error. -/
inductive LoadResult where
  | ok : KeyMap → LoadResult
  | error : KeyMap → GoError → LoadResult
  | panic : String → LoadResult
deriving DecidableEq

/-- The body of the `walkpath` closure for one visited file.
`pem.Decode`'s result is not nil-checked by the Go code: when no PEM
block is found, `block.Bytes` dereferences nil and the walk panics. -/
def walkStep (env : LoadEnv) (keys : KeyMap) (path : Str) (content : Bytes) :
    Outcome KeyMap :=
  if endsWithStr (strChars ".onion_key") path then
    let onionName := removeFirst (strChars ".onion_key") (basename path)
    match env.pemDecode content with
    | none => .panic "runtime error: invalid memory address or nil pointer dereference"
    | some blockBytes =>
      match env.pkcs1Decode blockBytes with
      | .error e => .error e
      | .ok privKey => .ok (mapInsert keys onionName privKey)
  else .ok keys

/-- `filepath.Walk`: visit files in order, abort on the first error
returned by the walk function, keeping the partially built map. -/
def loadKeysWalk (env : LoadEnv) (keys : KeyMap) : List (Str × Bytes) → LoadResult
  | [] => .ok keys
  | f :: rest =>
    match walkStep env keys f.1 f.2 with
    | .ok keys1 => loadKeysWalk env keys1 rest
    | .error e => .error keys e
    | .panic m => .panic m

structure NewEnv where
  bulbDial : Except GoError Unit
  authenticate : Except GoError Unit
  evalSymlinks : Except GoError Str
  files : List (Str × Bytes)
  loadEnv : LoadEnv

/-- `OnionTransport.loadKeys`. -/
def loadKeys (env : NewEnv) : LoadResult :=
  match env.evalSymlinks with
  | .error e => .error [] e
  | .ok _ => loadKeysWalk env.loadEnv [] env.files

/-- `NewOnionTransport`: control connection, authentication, then key
load; any key-load error (or panic) prevents construction — the
partially built key map is discarded. -/
def NewOnionTransport (env : NewEnv) (onlyOnion : Bool) : Outcome TransportState :=
  match env.bulbDial with
  | .error e => .error e
  | .ok _ =>
    match env.authenticate with
    | .error e => .error ("authentication failed: " ++ e)
    | .ok _ =>
      match loadKeys env with
      | .panic m => .panic m
      | .error _ e => .error e
      | .ok keys =>
        .ok { keys := keys, onlyOnion := onlyOnion, laddr := none, upgrader := none }

/-! ### `Listen` -/

structure ListenEnv where
  onionAddr : RsaPrivateKey → Except GoError Str
  controlListener : Nat → RsaPrivateKey → Except GoError RawListener

/-- `laddr.ValueForProtocol(ma.P_ONION)` as `Listen` uses it: the error
is ignored (the `if err != nil` body is empty), and Go's
`ValueForProtocol` yields the empty string alongside an error. -/
def listenValue (laddr : Multiaddr) : Str :=
  match valueForProtocol laddr P_ONION with
  | .ok v => v
  | .error _ => []

/-- `OnionTransport.Listen`.  The second result component records
whether the control connection was asked to create a raw listener.
The Go error text interpolates the service name; the model keeps the
fixed part of the message. -/
def Listen (env : ListenEnv) (t : TransportState) (laddr : Multiaddr) :
    Outcome (OnionListener × TransportState) × Bool :=
  -- addr := strings.Split(netaddr, ":"), inlined at each use
  if (splitOnChar ':' (listenValue laddr)).length ≠ 2 then
    (.error "failed to parse onion address", false)
  else
    match atoi ((splitOnChar ':' (listenValue laddr)).getD 1 []) with
    | .error _ => (.error "failed to convert onion service port to int", false)
    | .ok port =>
      match mapLookup t.keys ((splitOnChar ':' (listenValue laddr)).getD 0 []) with
      | none => (.error "missing onion service key material", false)
      | some onionKey =>
        -- the OnionListener literal sets only port, key and laddr:
        -- its transport and Upgrader fields are left at their zero
        -- value (nil)
        match env.onionAddr onionKey with
        | .error e => (.error ("failed to derive onion ID: " ++ e), false)
        | .ok _ =>
          match env.controlListener (uint16 port) onionKey with
          | .error e => (.error e, true)
          | .ok rawListener =>
            (.ok ({ port := uint16 port, key := onionKey, laddr := laddr,
                    listener := rawListener, transport := none, upgrader := none },
                  { t with laddr := some laddr }), true)

/-! ### `OnionListener.Accept` -/

structure AcceptEnv where
  rawAccept : Except GoError RawConn
  fromNetAddr : NetAddr → Except GoError Multiaddr
  upgradeInbound : Upgrader → OnionConn → Outcome UpgradedConn

/-- `OnionListener.Accept`: raw accept, derive the logical remote
address (propagating failure), wrap, inbound-upgrade.  With a nil
`Upgrader` field the method call `l.Upgrader.UpgradeInbound`
dereferences nil and panics. -/
def Accept (env : AcceptEnv) (l : OnionListener) : Outcome UpgradedConn :=
  match env.rawAccept with
  | .error e => .error e
  | .ok conn =>
    match env.fromNetAddr conn.remoteAddr with
    | .error e => .error e
    | .ok raddr =>
      let onionConn : OnionConn :=
        { rawConn := some conn, transport := l.transport,
          laddr := AddrPtr.value l.laddr, raddr := raddr }
      match l.upgrader with
      | none => .panic "runtime error: invalid memory address or nil pointer dereference"
      | some u => env.upgradeInbound u onionConn

/-! ### `Dial` -/

structure DialEnv where
  dialerCreate : Except GoError Unit
  toNetAddr : Multiaddr → Except GoError NetAddr
  rawDial : Str → Str → Except GoError RawConn
  upgradeOutbound : Bool → Upgrader → OnionConn → Outcome UpgradedConn

/-- Observable outcome of one `Dial` call.  `Dial` contains no call
that closes the raw connection on any path, so an established raw
connection remains open whenever a later step fails. -/
structure DialOut where
  result : Outcome UpgradedConn
  connBuilt : Option OnionConn
  rawConnEstablished : Bool
deriving DecidableEq

def dialFinish (env : DialEnv) (t : TransportState) (ctxCancelled : Bool)
    (conn0 : OnionConn) (dialRes : Except GoError RawConn) : DialOut :=
  match dialRes with
  | .error e => ⟨.error e, some conn0, false⟩
  | .ok rc =>
    let conn := { conn0 with rawConn := some rc }
    match t.upgrader with
    | none =>
      ⟨.panic "runtime error: invalid memory address or nil pointer dereference",
       some conn, true⟩
    | some u => ⟨env.upgradeOutbound ctxCancelled u conn, some conn, true⟩

/-- `OnionTransport.Dial`.  The context is threaded through untouched:
the Go code never consults it before or during the raw dial, only the
upgrader receives it.  The `OnionConn` literal takes `&t.laddr` — the
transport-slot pointer. -/
def Dial (env : DialEnv) (t : TransportState) (ctxCancelled : Bool)
    (raddr : Multiaddr) : DialOut :=
  match env.dialerCreate with
  | .error e => ⟨.error e, none, false⟩
  | .ok _ =>
    match env.toNetAddr raddr with
    | .ok netaddr =>
      let conn0 : OnionConn :=
        { rawConn := none, transport := some (),
          laddr := AddrPtr.transportSlot, raddr := raddr }
      dialFinish env t ctxCancelled conn0 (env.rawDial netaddr.network netaddr.address)
    | .error _ =>
      match valueForProtocol raddr P_ONION with
      | .error e => ⟨.error e, none, false⟩
      | .ok onionAddress =>
        let conn0 : OnionConn :=
          { rawConn := none, transport := some (),
            laddr := AddrPtr.transportSlot, raddr := raddr }
        if onionAddress ≠ [] then
          let split := splitOnChar ':' onionAddress
          if split.length < 2 then
            -- split[1] on a one-element slice: index out of range
            ⟨.panic "runtime error: index out of range", some conn0, false⟩
          else
            dialFinish env t ctxCancelled conn0
              (env.rawDial (strChars "tcp4")
                (split.getD 0 [] ++ strChars ".onion:" ++ split.getD 1 []))
        else
          -- ToNetAddr failed, so netaddr is the nil interface;
          -- netaddr.Network() dereferences it
          ⟨.panic "runtime error: invalid memory address or nil pointer dereference",
           some conn0, false⟩

/-! ### `CanDial` -/

def CanDial (t : TransportState) (a : Multiaddr) : Bool :=
  if t.onlyOnion then IsValidOnionMultiAddr a
  else IsValidOnionMultiAddr a || tcpMatches a

/-! ### Decimal rendering of a port number

Used to build the test addresses of the spec's universally quantified
properties ("a service address built from S and P"); this is spec-side
construction, not part of the embedded program. -/

def digitChar (d : Nat) : Char := Char.ofNat (48 + d)

def natToStrRec : Nat → Str
  | 0 => []
  | n + 1 => natToStrRec ((n + 1) / 10) ++ [digitChar ((n + 1) % 10)]
decreasing_by exact Nat.div_lt_self (Nat.succ_pos n) (by norm_num)

def natToStr (n : Nat) : Str := if n = 0 then ['0'] else natToStrRec n

/-! ### Concrete inputs for witnesses and code-bug evaluations -/

def lisEnvW : ListenEnv := ⟨fun _ => .ok [], fun _ _ => .ok ⟨9⟩⟩

def tW1 : TransportState := ⟨[(strChars "abc", ⟨5⟩)], true, none, none⟩

def laddrW1 : Multiaddr := [⟨444, strChars "abc:80"⟩]

def listW1 : OnionListener :=
  { port := 80, key := ⟨5⟩, laddr := laddrW1, listener := ⟨9⟩,
    transport := none, upgrader := none }

def tW1' : TransportState := ⟨[(strChars "abc", ⟨5⟩)], true, some laddrW1, none⟩

def aEnvW1 : AcceptEnv :=
  ⟨.ok ⟨⟨strChars "tcp", strChars "127.0.0.1:4001"⟩, 3⟩, fun _ => .ok [⟨6, strChars "4001"⟩],
   fun _ _ => .ok ⟨11⟩⟩

def loadEnvC2 : LoadEnv :=
  ⟨fun b => if b = [1] then some [10] else none,
   fun b => if b = [10] then .ok ⟨1⟩ else .error "pkcs1: decode failure"⟩

/-- Key directory of the spec's test: `alice.onion_key` decodes, while
`bob.onion_key` holds corrupted bytes in which `pem.Decode` finds no
block. -/
def newEnvC2 : NewEnv :=
  ⟨.ok (), .ok (), .ok (strChars "keys"),
   [(strChars "keys/alice.onion_key", [1]), (strChars "keys/bob.onion_key", [2])],
   loadEnvC2⟩

def raddrC3 : Multiaddr := [⟨444, strChars "abcdefghijklmnop:80"⟩]

/-- Dial environment for the cancelled-context scenario: the raw dial
succeeds, and the upgrader — the only step that sees the context —
fails with the cancellation error when the context is cancelled. -/
def dEnvC3 : DialEnv :=
  ⟨.ok (), fun _ => .error "multiaddr is not a net addr", fun _ _ => .ok ⟨⟨[], []⟩, 7⟩,
   fun ctxCancelled _ _ =>
     if ctxCancelled then .error "context canceled" else .ok ⟨3⟩⟩

def tC3 : TransportState := ⟨[], true, none, some ⟨1⟩⟩

def tW4 : TransportState := ⟨[], true, none, none⟩

def laddrW4 : Multiaddr := [⟨444, strChars "abc:80"⟩]

def lW5 : OnionListener :=
  { port := 80, key := ⟨5⟩, laddr := laddrW1, listener := ⟨9⟩,
    transport := none, upgrader := some ⟨2⟩ }

def connW5 : OnionConn :=
  { rawConn := some ⟨⟨strChars "tcp", strChars "127.0.0.1:4001"⟩, 3⟩,
    transport := none, laddr := AddrPtr.value laddrW1,
    raddr := [⟨6, strChars "4001"⟩] }

def tMixedW : TransportState := ⟨[], false, none, none⟩

def tcpAddrW : Multiaddr := [⟨4, strChars "1.2.3.4"⟩, ⟨6, strChars "80"⟩]

def dEnvW9 : DialEnv :=
  ⟨.ok (), fun _ => .error "multiaddr is not a net addr", fun _ _ => .error "refused",
   fun _ _ _ => .ok ⟨3⟩⟩

def connW9 : OnionConn :=
  { rawConn := none, transport := some (),
    laddr := AddrPtr.transportSlot, raddr := raddrC3 }

def listW9 : OnionListener :=
  { port := 80, key := ⟨5⟩, laddr := laddrW1, listener := ⟨9⟩,
    transport := none, upgrader := none }

def tW9' : TransportState := ⟨[(strChars "abc", ⟨5⟩)], true, some laddrW1, none⟩

def c10Addr : Multiaddr := [⟨444, strChars "abc:80"⟩]

/-! ## Lemmas about the string primitives -/

lemma splitOnChar_ne_nil (sep : Char) (l : Str) : splitOnChar sep l ≠ [] := by
  cases l with
  | nil => simp [splitOnChar]
  | cons c rest =>
    unfold splitOnChar
    by_cases h : c = sep
    · simp [h]
    · simp only [h, if_false]
      cases splitOnChar sep rest <;> simp

lemma splitOnChar_length (sep : Char) (l : Str) :
    (splitOnChar sep l).length = l.count sep + 1 := by
  induction l with
  | nil => simp [splitOnChar]
  | cons c rest ih =>
    unfold splitOnChar
    by_cases h : c = sep
    · simp [h, List.count_cons, ih]
    · simp only [h, if_false]
      have hne := splitOnChar_ne_nil sep rest
      cases hsp : splitOnChar sep rest with
      | nil => exact absurd hsp hne
      | cons p ps =>
        rw [hsp] at ih
        simp at ih
        simp [List.count_cons, h, ih]

lemma splitOnChar_no_sep (sep : Char) (l : Str) (h : sep ∉ l) :
    splitOnChar sep l = [l] := by
  induction l with
  | nil => rfl
  | cons c rest ih =>
    have hc : ¬ c = sep := fun hh => h (hh ▸ List.mem_cons_self c rest)
    have hrest : sep ∉ rest := fun hh => h (List.mem_cons_of_mem c hh)
    unfold splitOnChar
    simp only [hc, if_false, ih hrest]

lemma splitOnChar_append_sep (sep : Char) (xs ys : Str) (h : sep ∉ xs) :
    splitOnChar sep (xs ++ sep :: ys) = xs :: splitOnChar sep ys := by
  induction xs with
  | nil => simp [splitOnChar]
  | cons c rest ih =>
    have hc : ¬ c = sep := fun hh => h (hh ▸ List.mem_cons_self c rest)
    have hrest : sep ∉ rest := fun hh => h (List.mem_cons_of_mem c hh)
    rw [List.cons_append, splitOnChar]
    simp only [hc, if_false, ih hrest]

/-! ## Lemmas about decimal digits and `atoi` -/

lemma digitVal_digitChar (d : Nat) (h : d < 10) : digitVal (digitChar d) = some d := by
  interval_cases d <;> decide

lemma natToStrRec_digits (n : Nat) : ∀ c ∈ natToStrRec n, digitVal c ≠ none := by
  induction n using Nat.strong_induction_on with
  | _ n ih =>
    match n with
    | 0 => simp [natToStrRec]
    | m + 1 =>
      rw [natToStrRec]
      intro c hc
      rcases List.mem_append.mp hc with hmem | hmem
      · exact ih _ (Nat.div_lt_self (Nat.succ_pos m) (by norm_num)) c hmem
      · have hd : (m + 1) % 10 < 10 := Nat.mod_lt _ (by norm_num)
        simp only [List.mem_singleton] at hmem
        subst hmem
        rw [digitVal_digitChar _ hd]
        simp

lemma natToStr_digits (n : Nat) : ∀ c ∈ natToStr n, digitVal c ≠ none := by
  unfold natToStr
  by_cases h : n = 0
  · simp [h]
    decide
  · simp only [h, if_false]
    exact natToStrRec_digits n

lemma natToStr_ne_nil (n : Nat) : natToStr n ≠ [] := by
  unfold natToStr
  by_cases h : n = 0
  · simp [h]
  · simp only [h, if_false]
    match n, h with
    | m + 1, _ =>
      rw [natToStrRec]
      simp

lemma digitsValAux_append (acc : Nat) (xs ys : Str) :
    digitsValAux acc (xs ++ ys) =
      match digitsValAux acc xs with
      | none => none
      | some a => digitsValAux a ys := by
  induction xs generalizing acc with
  | nil => rfl
  | cons c rest ih =>
    cases hdc : digitVal c with
    | none => simp [List.cons_append, digitsValAux, hdc]
    | some d =>
      simp only [List.cons_append, digitsValAux, hdc, List.append_eq]
      rw [ih]

lemma digitsValAux_natToStrRec (n : Nat) : ∀ acc : Nat,
    digitsValAux acc (natToStrRec n) = some (acc * 10 ^ (natToStrRec n).length + n) := by
  induction n using Nat.strong_induction_on with
  | _ n ih =>
    intro acc
    match n with
    | 0 => simp [natToStrRec, digitsValAux]
    | m + 1 =>
      rw [natToStrRec]
      rw [digitsValAux_append]
      rw [ih ((m + 1) / 10) (Nat.div_lt_self (Nat.succ_pos m) (by norm_num)) acc]
      have hd : (m + 1) % 10 < 10 := Nat.mod_lt _ (by norm_num)
      simp only [digitsValAux, digitVal_digitChar _ hd, List.length_append,
        List.length_cons, List.length_nil]
      congr 1
      rw [pow_succ]
      generalize (natToStrRec ((m + 1) / 10)).length = L
      have hsplit : (m + 1) / 10 * 10 + (m + 1) % 10 = m + 1 := by omega
      conv_rhs => rw [← hsplit]
      ring

lemma digitsVal_natToStr (n : Nat) : digitsVal (natToStr n) = some n := by
  by_cases h : n = 0
  · subst h; decide
  · have hne := natToStr_ne_nil n
    have heq : natToStr n = natToStrRec n := by simp [natToStr, h]
    cases hl : natToStr n with
    | nil => exact absurd hl hne
    | cons c cs =>
      have : digitsVal (c :: cs) = digitsValAux 0 (c :: cs) := rfl
      rw [this, ← hl, heq, digitsValAux_natToStrRec]
      simp

lemma atoi_natToStr (n : Nat) (h : (n : Int) ≤ goMaxInt) :
    atoi (natToStr n) = .ok (n : Int) := by
  have hd := natToStr_digits n
  cases hl : natToStr n with
  | nil => exact absurd hl (natToStr_ne_nil n)
  | cons c cs =>
    have hcdig : digitVal c ≠ none := by
      apply hd; rw [hl]; exact List.mem_cons_self c cs
    have hcm : ¬ c = '-' := by
      intro hh; subst hh; exact hcdig (by decide)
    have hcp : ¬ c = '+' := by
      intro hh; subst hh; exact hcdig (by decide)
    have hdv : digitsVal (c :: cs) = some n := by rw [← hl, digitsVal_natToStr]
    have h0 : ¬ ((n : Int) < goMinInt ∨ goMaxInt < (n : Int)) := by
      simp only [goMinInt, goMaxInt] at *
      omega
    simp only [atoi, if_neg (fun hor => Or.elim hor hcm hcp), hdv, if_neg hcm, if_neg h0]

lemma atoi_natToStr_big (n : Nat) (h : goMaxInt < (n : Int)) :
    atoi (natToStr n) = .error "value out of range" := by
  have hd := natToStr_digits n
  cases hl : natToStr n with
  | nil => exact absurd hl (natToStr_ne_nil n)
  | cons c cs =>
    have hcdig : digitVal c ≠ none := by
      apply hd; rw [hl]; exact List.mem_cons_self c cs
    have hcm : ¬ c = '-' := by
      intro hh; subst hh; exact hcdig (by decide)
    have hcp : ¬ c = '+' := by
      intro hh; subst hh; exact hcdig (by decide)
    have hdv : digitsVal (c :: cs) = some n := by rw [← hl, digitsVal_natToStr]
    have h0 : (n : Int) < goMinInt ∨ goMaxInt < (n : Int) := Or.inr h
    simp only [atoi, if_neg (fun hor => Or.elim hor hcm hcp), hdv, if_neg hcm, if_pos h0]

lemma atoi_neg_natToStr (n : Nat) :
    atoi ('-' :: natToStr n) = .error "value out of range" ∨
      atoi ('-' :: natToStr n) = .ok (-(n : Int)) := by
  have hdv : digitsVal (natToStr n) = some n := digitsVal_natToStr n
  by_cases hr : (-(n : Int) < goMinInt ∨ goMaxInt < -(n : Int))
  · left
    simp [atoi, hdv, hr]
  · right
    simp [atoi, hdv, hr]

lemma natToStr_no_colon (n : Nat) : ':' ∉ natToStr n := by
  intro h
  exact natToStr_digits n ':' h (by decide)

/-! ## Lemmas about the base32 decode model

A 16-character input is decoded as two full quanta.  In the first
quantum more than 8 characters remain at every step, so the padding
branch is unreachable and every consumed character must be in the
decode alphabet; in the second quantum every character is either in the
alphabet or a checked trailing `=`.  Hence a successfully decoding
16-character string contains no `:`, which is what the validator's
split argument needs. -/

lemma decodeQuantum_full (src : Str) : ∀ (j : Nat) (e : Bool) (rem : Str),
    j < 8 → src.length + j = 16 → decodeQuantum src j = some (e, rem) →
    e = false ∧ rem.length = 8 ∧ ∀ c ∈ src, c ∈ rem ∨ b32DecodeMap c ≠ none := by
  induction src with
  | nil =>
    intro j e rem hj hlen h
    simp [decodeQuantum] at h
  | cons c cs ih =>
    intro j e rem hj hlen h
    have hcs : cs.length = 15 - j := by
      simp only [List.length_cons] at hlen
      omega
    have hge : ¬ cs.length < 8 := by omega
    rw [decodeQuantum] at h
    rw [if_neg (fun hcond => hge hcond.2.2)] at h
    cases hm : b32DecodeMap c with
    | none =>
      rw [hm] at h
      exact absurd h (by simp)
    | some d =>
      rw [hm] at h
      by_cases hj8 : j + 1 = 8
      · rw [if_pos hj8] at h
        simp only [Option.some.injEq, Prod.mk.injEq] at h
        obtain ⟨he, hrem⟩ := h
        subst he
        subst hrem
        refine ⟨rfl, by omega, ?_⟩
        intro x hx
        rcases List.mem_cons.mp hx with hx | hx
        · subst hx
          right
          rw [hm]
          simp
        · left
          exact hx
      · rw [if_neg hj8] at h
        have hj' : j + 1 < 8 := by omega
        have hlen' : cs.length + (j + 1) = 16 := by omega
        obtain ⟨he, hrl, hmem⟩ := ih (j + 1) e rem hj' hlen' h
        refine ⟨he, hrl, ?_⟩
        intro x hx
        rcases List.mem_cons.mp hx with hx | hx
        · subst hx
          right
          rw [hm]
          simp
        · exact hmem x hx

lemma decodeQuantum_last (src : Str) : ∀ (j : Nat) (e : Bool) (rem : Str),
    j < 8 → src.length + j = 8 → decodeQuantum src j = some (e, rem) →
    ∀ c ∈ src, b32DecodeMap c ≠ none ∨ c = '=' := by
  induction src with
  | nil =>
    intro j e rem hj hlen h
    simp [decodeQuantum] at h
  | cons c cs ih =>
    intro j e rem hj hlen h
    have hcs : cs.length = 7 - j := by
      simp only [List.length_cons] at hlen
      omega
    rw [decodeQuantum] at h
    by_cases hpad : c = '=' ∧ 2 ≤ j ∧ cs.length < 8
    · rw [if_pos hpad] at h
      rw [if_neg (by omega)] at h
      by_cases hany : (List.range (7 - j)).any
          (fun k => decide (k < cs.length) && decide (cs.getD k '=' ≠ '=')) = true
      · rw [if_pos hany] at h
        exact absurd h (by simp)
      · rw [if_neg hany] at h
        have hall : ∀ k, k < cs.length → cs.getD k '=' = '=' := by
          intro k hk
          by_contra hne
          apply hany
          rw [List.any_eq_true]
          refine ⟨k, List.mem_range.mpr (by omega), ?_⟩
          simp only [Bool.and_eq_true, decide_eq_true_eq]
          exact ⟨hk, hne⟩
        intro x hx
        rcases List.mem_cons.mp hx with hx | hx
        · subst hx
          right
          exact hpad.1
        · right
          rcases List.mem_iff_get.mp hx with ⟨⟨k, hk⟩, hget⟩
          have hgd : cs.getD k '=' = x := by
            rw [List.getD_eq_getElem cs '=' hk]
            simpa using hget
          rw [← hgd]
          exact hall k hk
    · rw [if_neg hpad] at h
      cases hm : b32DecodeMap c with
      | none =>
        rw [hm] at h
        exact absurd h (by simp)
      | some d =>
        rw [hm] at h
        by_cases hj8 : j + 1 = 8
        · rw [if_pos hj8] at h
          have hnil : cs = [] := List.length_eq_zero.mp (by omega)
          intro x hx
          rcases List.mem_cons.mp hx with hx | hx
          · subst hx
            left
            rw [hm]
            simp
          · rw [hnil] at hx
            simp at hx
        · rw [if_neg hj8] at h
          have hj' : j + 1 < 8 := by omega
          have hlen' : cs.length + (j + 1) = 8 := by omega
          have hmem := ih (j + 1) e rem hj' hlen' h
          intro x hx
          rcases List.mem_cons.mp hx with hx | hx
          · subst hx
            left
            rw [hm]
            simp
          · exact hmem x hx

lemma base32_sixteen_chars (s : Str) (h16 : s.length = 16)
    (hok : base32DecodeOk s = true) :
    ∀ c ∈ s, b32DecodeMap c ≠ none ∨ c = '=' := by
  cases s with
  | nil => simp at h16
  | cons c cs =>
    unfold base32DecodeOk at hok
    rw [h16] at hok
    have h1 : base32DecodeOkAux 16 (c :: cs) =
        (match decodeQuantum (c :: cs) 0 with
         | none => false
         | some (true, _) => true
         | some (false, rem) => base32DecodeOkAux 15 rem) := rfl
    rw [h1] at hok
    cases hq : decodeQuantum (c :: cs) 0 with
    | none =>
      rw [hq] at hok
      exact absurd (show (false : Bool) = true from hok) (by decide)
    | some p =>
      obtain ⟨e, rem⟩ := p
      have hfull := decodeQuantum_full (c :: cs) 0 e rem (by omega) (by omega) hq
      obtain ⟨he, hrl, hmem1⟩ := hfull
      subst he
      rw [hq] at hok
      cases rem with
      | nil => simp at hrl
      | cons r rs =>
        have hok2 : base32DecodeOkAux 15 (r :: rs) = true := hok
        have h2 : base32DecodeOkAux 15 (r :: rs) =
            (match decodeQuantum (r :: rs) 0 with
             | none => false
             | some (true, _) => true
             | some (false, rem2) => base32DecodeOkAux 14 rem2) := rfl
        rw [h2] at hok2
        cases hq2 : decodeQuantum (r :: rs) 0 with
        | none =>
          rw [hq2] at hok2
          exact absurd (show (false : Bool) = true from hok2) (by decide)
        | some p2 =>
          obtain ⟨e2, rem2⟩ := p2
          have hmem2 := decodeQuantum_last (r :: rs) 0 e2 rem2 (by omega) (by omega) hq2
          intro x hx
          rcases hmem1 x hx with hx2 | hx2
          · exact hmem2 x hx2
          · left
            exact hx2

lemma base32_no_colon (s : Str) (h16 : s.length = 16) (hc : ':' ∈ s) :
    base32DecodeOk s = false := by
  by_contra h
  have hb : base32DecodeOk s = true := by
    cases hval : base32DecodeOk s
    · exact absurd hval h
    · rfl
  rcases base32_sixteen_chars s h16 hb ':' hc with h1 | h1
  · exact h1 (by decide)
  · exact absurd h1 (by decide)

lemma upperStr_length (s : Str) : (upperStr s).length = s.length :=
  List.length_map s toUpperGo

lemma colon_mem_upperStr (s : Str) (h : ':' ∈ s) : ':' ∈ upperStr s := by
  have hcol : toUpperGo ':' = ':' := by decide
  rw [← hcol]
  exact List.mem_map_of_mem toUpperGo h

lemma base32_upper_no_colon (S : Str) (h16 : S.length = 16) (hc : ':' ∈ S) :
    base32DecodeOk (upperStr S) = false :=
  base32_no_colon (upperStr S) (by rw [upperStr_length, h16]) (colon_mem_upperStr S hc)

/-! ## Evaluation lemmas for the validator -/

/-- On a single-component onion address the protocol-count and
protocol-name checks pass and `ValueForProtocol` yields the component's
value, so the validator reduces to its split/identifier/port phase. -/
lemma isValidE_eval (v : Str) :
    isValidOnionMultiAddrE [⟨P_ONION, v⟩] =
      (if (splitOnChar ':' v).length ≠ 2 then (false, [])
       else if ((splitOnChar ':' v).getD 0 []).length ≠ 16 then
         (false, [(splitOnChar ':' v).getD 0 []])
       else if base32DecodeOk (upperStr ((splitOnChar ':' v).getD 0 [])) = false then
         (false, [])
       else
         match atoi ((splitOnChar ':' v).getD 1 []) with
         | .error _ => (false, [])
         | .ok i => if 65536 ≤ i ∨ i < 1 then (false, []) else (true, [])) := rfl

/-- With no colon in identifier or port text, the split yields exactly
those two parts and the validator reduces to the three per-part
checks. -/
lemma isValid_mk (S pstr : Str) (hS : ':' ∉ S) (hp : ':' ∉ pstr) :
    IsValidOnionMultiAddr (mkOnionAddr S pstr) =
      (if S.length ≠ 16 then false
       else if base32DecodeOk (upperStr S) = false then false
       else
         match atoi pstr with
         | .error _ => false
         | .ok i => if 65536 ≤ i ∨ i < 1 then false else true) := by
  have hsplit : splitOnChar ':' (S ++ ':' :: pstr) = [S, pstr] := by
    rw [splitOnChar_append_sep ':' S pstr hS, splitOnChar_no_sep ':' pstr hp]
  rw [IsValidOnionMultiAddr, mkOnionAddr, isValidE_eval, hsplit]
  simp only [List.length_cons, List.length_nil, List.getD_cons_zero, List.getD_cons_succ]
  rw [if_neg (by omega)]
  by_cases h16 : S.length ≠ 16
  · simp [h16]
  · by_cases hb : base32DecodeOk (upperStr S) = false
    · simp [h16, hb]
    · cases ha : atoi pstr with
      | error e => simp [h16, hb, ha]
      | ok i =>
        by_cases hrange : (65536 ≤ i ∨ i < 1)
        · simp [h16, hb, ha, hrange]
        · simp [h16, hb, ha, hrange]

/-- A colon inside the identifier or the port text makes the split
produce three or more parts, so the validator rejects. -/
lemma isValid_mk_colon (S pstr : Str) (h : ':' ∈ S ∨ ':' ∈ pstr) :
    IsValidOnionMultiAddr (mkOnionAddr S pstr) = false := by
  have hlen : (splitOnChar ':' (S ++ ':' :: pstr)).length =
      (S.count ':') + ((pstr.count ':') + 1) + 1 := by
    rw [splitOnChar_length, List.count_append, List.count_cons]
    simp
  have hpos : 0 < S.count ':' + pstr.count ':' := by
    rcases h with hmem | hmem
    · have h0 : S.count ':' ≠ 0 := fun hz => (List.count_eq_zero.mp hz) hmem
      omega
    · have h0 : pstr.count ':' ≠ 0 := fun hz => (List.count_eq_zero.mp hz) hmem
      omega
  have hne2 : (splitOnChar ':' (S ++ ':' :: pstr)).length ≠ 2 := by omega
  rw [IsValidOnionMultiAddr, mkOnionAddr, isValidE_eval, if_pos hne2]

lemma protocolName_ne (code : Nat) (h : code ≠ 444) : protocolName code ≠ "onion" := by
  unfold protocolName
  rw [if_neg h]
  split
  · decide
  · split
    · decide
    · split
      · decide
      · decide

/-! ## Lemmas about `Listen` -/

/-- Shape of a successful `Listen`: the listener's `transport` and
`Upgrader` fields are nil and the transport's `laddr` slot is set to
the bound address. -/
lemma listen_ok_shape (env : ListenEnv) (t : TransportState) (laddr : Multiaddr)
    (l : OnionListener) (t' : TransportState) (b : Bool)
    (h : Listen env t laddr = (.ok (l, t'), b)) :
    l.transport = none ∧ l.upgrader = none ∧
      t' = { t with laddr := some laddr } ∧ b = true := by
  unfold Listen at h
  split at h
  · simp at h
  · split at h
    · simp at h
    · split at h
      · simp at h
      · split at h
        · simp at h
        · split at h
          · simp at h
          · simp only [Prod.mk.injEq, Outcome.ok.injEq] at h
            obtain ⟨⟨hl, ht⟩, hb⟩ := h
            subst hl
            subst ht
            exact ⟨rfl, rfl, rfl, hb.symm⟩

/-- `Accept` on a listener whose `Upgrader` field is nil can only
return an error or panic, never a connection. -/
lemma accept_no_upgrader (env : AcceptEnv) (l : OnionListener)
    (hu : l.upgrader = none) :
    ∀ c : UpgradedConn, Accept env l ≠ .ok c := by
  intro c
  unfold Accept
  cases h1 : env.rawAccept with
  | error e => simp [h1]
  | ok conn =>
    simp only [h1]
    cases h2 : env.fromNetAddr conn.remoteAddr with
    | error e => simp [h2]
    | ok raddr => simp [h2, hu]

/-! ## Lemmas about `Dial` -/

/-- Whatever `dialFinish` reports as the built connection differs from
`conn0` at most in its embedded raw connection; the address pointers
are unchanged. -/
lemma dialFinish_laddr (env : DialEnv) (t : TransportState) (ctx : Bool)
    (conn0 : OnionConn) (res : Except GoError RawConn) (c : OnionConn)
    (h : (dialFinish env t ctx conn0 res).connBuilt = some c) :
    c.laddr = conn0.laddr := by
  unfold dialFinish at h
  cases res with
  | error e =>
    simp only [Option.some.injEq] at h
    rw [← h]
  | ok rc =>
    cases hu : t.upgrader with
    | none =>
      simp only [hu, Option.some.injEq] at h
      rw [← h]
    | some u =>
      simp only [hu, Option.some.injEq] at h
      rw [← h]

/-- Every connection `Dial` builds takes its `laddr` field as the
pointer `&t.laddr` into the transport's mutable slot. -/
lemma dial_connBuilt_slot (env : DialEnv) (t : TransportState) (ctx : Bool)
    (raddr : Multiaddr) (c : OnionConn)
    (h : (Dial env t ctx raddr).connBuilt = some c) :
    c.laddr = AddrPtr.transportSlot := by
  unfold Dial at h
  cases h1 : env.dialerCreate with
  | error e =>
    simp [h1] at h
  | ok u1 =>
    simp only [h1] at h
    cases h2 : env.toNetAddr raddr with
    | ok na =>
      simp only [h2] at h
      exact dialFinish_laddr env t ctx _ _ c h
    | error e2 =>
      simp only [h2] at h
      cases h3 : valueForProtocol raddr P_ONION with
      | error e3 =>
        simp [h3] at h
      | ok oa =>
        simp only [h3] at h
        by_cases hne : oa ≠ []
        · rw [if_pos hne] at h
          by_cases hlen : (splitOnChar ':' oa).length < 2
          · rw [if_pos hlen] at h
            simp only [Option.some.injEq] at h
            rw [← h]
          · rw [if_neg hlen] at h
            exact dialFinish_laddr env t ctx _ _ c h
        · rw [if_neg hne] at h
          simp only [Option.some.injEq] at h
          rw [← h]

/-! ## Claim theorems -/

/-- C1: the `OnionListener` literal in `Listen` sets only `port`, `key`
and `laddr`, leaving `transport` and `Upgrader` nil; consequently
`Accept` on any listener `Listen` returns — whose inbound-upgrade step
calls through the nil `Upgrader` — can never return a connection after
a raw connection is accepted. -/
theorem c1_listener_nil_upgrader (env : ListenEnv) (t : TransportState)
    (laddr : Multiaddr) (l : OnionListener) (t' : TransportState) (b : Bool)
    (h : Listen env t laddr = (.ok (l, t'), b)) :
    l.transport = none ∧ l.upgrader = none ∧
      ∀ (aenv : AcceptEnv) (c : UpgradedConn), Accept aenv l ≠ .ok c := by
  obtain ⟨ht, hu, _, _⟩ := listen_ok_shape env t laddr l t' b h
  exact ⟨ht, hu, fun aenv c => accept_no_upgrader aenv l hu c⟩

theorem c1_witness : Accept aEnvW1 listW1 ≠ .ok ⟨11⟩ :=
  (c1_listener_nil_upgrader lisEnvW tW1 laddrW1 listW1 tW1' true rfl).2.2 aEnvW1 ⟨11⟩

/-- C2 (code evaluation): on the spec's own test directory — a decodable
`alice.onion_key` next to a corrupted `bob.onion_key` in which
`pem.Decode` finds no block — the key load panics on the nil `block`
dereference instead of returning an error, and transport construction
panics rather than failing with an error. -/
theorem c2_pem_nil_panics :
    loadKeys newEnvC2 =
      .panic "runtime error: invalid memory address or nil pointer dereference" ∧
    NewOnionTransport newEnvC2 false =
      .panic "runtime error: invalid memory address or nil pointer dereference" :=
  ⟨rfl, rfl⟩

/-- C3 (code evaluation): with the context already cancelled before the
raw connection completes, `Dial` still establishes the raw connection
(it never consults the context), returns the upgrader's cancellation
error, and leaves the raw connection open — no path in `Dial` closes
it. -/
theorem c3_cancelled_dial_leaks :
    (Dial dEnvC3 tC3 true raddrC3).result = .error "context canceled" ∧
    (Dial dEnvC3 tC3 true raddrC3).rawConnEstablished = true :=
  ⟨rfl, rfl⟩

/-- C4: `Listen` returns an error and never asks the control connection
for a raw listener whenever the onion component is absent, its value
does not split into exactly two parts, its port fails to parse, or the
identifier has no key in the loaded key map. -/
theorem c4_listen_error_paths (env : ListenEnv) (t : TransportState) (laddr : Multiaddr)
    (h : exceptIsOk (valueForProtocol laddr P_ONION) = false ∨
         (splitOnChar ':' (listenValue laddr)).length ≠ 2 ∨
         exceptIsOk (atoi ((splitOnChar ':' (listenValue laddr)).getD 1 [])) = false ∨
         mapLookup t.keys ((splitOnChar ':' (listenValue laddr)).getD 0 []) = none) :
    outcomeIsError (Listen env t laddr).1 = true ∧ (Listen env t laddr).2 = false := by
  have habs : exceptIsOk (valueForProtocol laddr P_ONION) = false →
      (splitOnChar ':' (listenValue laddr)).length ≠ 2 := by
    intro ha
    cases hv : valueForProtocol laddr P_ONION with
    | ok v =>
      rw [hv] at ha
      exact absurd ha (by simp [exceptIsOk])
    | error e =>
      have hlv : listenValue laddr = [] := by
        unfold listenValue
        rw [hv]
      rw [hlv]
      decide
  have hrest : (splitOnChar ':' (listenValue laddr)).length ≠ 2 ∨
      exceptIsOk (atoi ((splitOnChar ':' (listenValue laddr)).getD 1 [])) = false ∨
      mapLookup t.keys ((splitOnChar ':' (listenValue laddr)).getD 0 []) = none := by
    rcases h with h | h | h | h
    · exact Or.inl (habs h)
    · exact Or.inl h
    · exact Or.inr (Or.inl h)
    · exact Or.inr (Or.inr h)
  unfold Listen
  by_cases h2 : (splitOnChar ':' (listenValue laddr)).length ≠ 2
  · rw [if_pos h2]
    exact ⟨rfl, rfl⟩
  · rw [if_neg h2]
    rcases hrest with hx | hx | hx
    · exact absurd hx h2
    · cases ha : atoi ((splitOnChar ':' (listenValue laddr)).getD 1 []) with
      | error e =>
        exact ⟨rfl, rfl⟩
      | ok i =>
        rw [ha] at hx
        exact absurd hx (by simp [exceptIsOk])
    · cases ha : atoi ((splitOnChar ':' (listenValue laddr)).getD 1 []) with
      | error e =>
        exact ⟨rfl, rfl⟩
      | ok i =>
        rw [hx]
        exact ⟨rfl, rfl⟩

theorem c4_witness :
    outcomeIsError (Listen lisEnvW tW4 laddrW4).1 = true ∧
      (Listen lisEnvW tW4 laddrW4).2 = false :=
  c4_listen_error_paths lisEnvW tW4 laddrW4 (Or.inr (Or.inr (Or.inr rfl)))

/-- C5: after a successful raw accept, `Accept` propagates a failing
remote-address conversion unchanged (no fallback), and on success
returns exactly the inbound upgrade of the connection wrapping the raw
connection with the listener's bound local address and the derived
remote address. -/
theorem c5_accept_wraps (env : AcceptEnv) (l : OnionListener) (rc : RawConn)
    (h : env.rawAccept = .ok rc) :
    (∀ e, env.fromNetAddr rc.remoteAddr = .error e → Accept env l = .error e) ∧
    (∀ r u, env.fromNetAddr rc.remoteAddr = .ok r → l.upgrader = some u →
      Accept env l = env.upgradeInbound u
        { rawConn := some rc, transport := l.transport,
          laddr := AddrPtr.value l.laddr, raddr := r }) := by
  constructor
  · intro e he
    unfold Accept
    simp only [h, he]
  · intro r u hr hu
    unfold Accept
    simp only [h, hr, hu]

theorem c5_witness :
    Accept aEnvW1 lW5 = aEnvW1.upgradeInbound ⟨2⟩ connW5 :=
  (c5_accept_wraps aEnvW1 lW5 ⟨⟨strChars "tcp", strChars "127.0.0.1:4001"⟩, 3⟩ rfl).2
    [⟨6, strChars "4001"⟩] ⟨2⟩ rfl rfl

/-- C6: on a single-component onion address built from identifier `S`
and a port, the validator accepts exactly when `S` is 16 characters
long, decodes as case-insensitive base32 after upcasing, and the port
is a decimal in [1, 65535]; port 0, ports ≥ 65536, negative port text,
non-numeric port text, wrong identifier length and base32-rejected
identifiers all make it return false. -/
theorem c6_validator_rules (S pstr : Str) (P : Nat) :
    (S.length = 16 → base32DecodeOk (upperStr S) = true → 1 ≤ P → P ≤ 65535 →
      IsValidOnionMultiAddr (mkOnionAddr S (natToStr P)) = true) ∧
    (IsValidOnionMultiAddr (mkOnionAddr S (natToStr 0)) = false) ∧
    (65536 ≤ P → IsValidOnionMultiAddr (mkOnionAddr S (natToStr P)) = false) ∧
    (IsValidOnionMultiAddr (mkOnionAddr S ('-' :: natToStr P)) = false) ∧
    (exceptIsOk (atoi pstr) = false →
      IsValidOnionMultiAddr (mkOnionAddr S pstr) = false) ∧
    ((S.length ≠ 16 ∨ base32DecodeOk (upperStr S) = false) →
      IsValidOnionMultiAddr (mkOnionAddr S pstr) = false) := by
  refine ⟨?_, ?_, ?_, ?_, ?_, ?_⟩
  · intro h16 hb32 hp1 hp2
    have hScolon : ':' ∉ S := by
      intro hc
      rw [base32_upper_no_colon S h16 hc] at hb32
      exact absurd hb32 (by decide)
    rw [isValid_mk S (natToStr P) hScolon (natToStr_no_colon P)]
    rw [if_neg (by omega)]
    rw [if_neg (by simp [hb32])]
    rw [atoi_natToStr P (by simp only [goMaxInt]; omega)]
    simp
    omega
  · by_cases hcS : ':' ∈ S
    · exact isValid_mk_colon S (natToStr 0) (Or.inl hcS)
    · rw [isValid_mk S (natToStr 0) hcS (natToStr_no_colon 0)]
      rw [atoi_natToStr 0 (by simp only [goMaxInt]; omega)]
      by_cases h16 : S.length ≠ 16
      · simp [h16]
      · by_cases hb : base32DecodeOk (upperStr S) = false
        · simp [h16, hb]
        · simp [h16, hb]
  · intro hP
    by_cases hcS : ':' ∈ S
    · exact isValid_mk_colon S (natToStr P) (Or.inl hcS)
    · rw [isValid_mk S (natToStr P) hcS (natToStr_no_colon P)]
      by_cases hbig : (P : Int) ≤ goMaxInt
      · rw [atoi_natToStr P hbig]
        by_cases h16 : S.length ≠ 16
        · simp [h16]
        · by_cases hb : base32DecodeOk (upperStr S) = false
          · simp [h16, hb]
          · simp [h16, hb]
            omega
      · rw [atoi_natToStr_big P (by omega)]
        by_cases h16 : S.length ≠ 16
        · simp [h16]
        · by_cases hb : base32DecodeOk (upperStr S) = false
          · simp [h16, hb]
          · simp [h16, hb]
  · by_cases hcS : ':' ∈ S
    · exact isValid_mk_colon S ('-' :: natToStr P) (Or.inl hcS)
    · have hpc : ':' ∉ '-' :: natToStr P := by
        intro hmem
        rcases List.mem_cons.mp hmem with h1 | h1
        · exact absurd h1 (by decide)
        · exact natToStr_no_colon P h1
      rw [isValid_mk S ('-' :: natToStr P) hcS hpc]
      rcases atoi_neg_natToStr P with ha | ha
      · rw [ha]
        by_cases h16 : S.length ≠ 16
        · simp [h16]
        · by_cases hb : base32DecodeOk (upperStr S) = false
          · simp [h16, hb]
          · simp [h16, hb]
      · rw [ha]
        have hor : (65536 ≤ -(P : Int) ∨ -(P : Int) < 1) := Or.inr (by omega)
        by_cases h16 : S.length ≠ 16
        · simp [h16]
        · by_cases hb : base32DecodeOk (upperStr S) = false
          · simp [h16, hb]
          · simp [h16, hb, hor]
  · intro herr
    by_cases hcS : ':' ∈ S
    · exact isValid_mk_colon S pstr (Or.inl hcS)
    · by_cases hcp : ':' ∈ pstr
      · exact isValid_mk_colon S pstr (Or.inr hcp)
      · rw [isValid_mk S pstr hcS hcp]
        cases ha : atoi pstr with
        | error e =>
          by_cases h16 : S.length ≠ 16
          · simp [h16]
          · by_cases hb : base32DecodeOk (upperStr S) = false
            · simp [h16, hb]
            · simp [h16, hb]
        | ok i =>
          rw [ha] at herr
          exact absurd herr (by simp [exceptIsOk])
  · intro hid
    by_cases hcS : ':' ∈ S
    · exact isValid_mk_colon S pstr (Or.inl hcS)
    · by_cases hcp : ':' ∈ pstr
      · exact isValid_mk_colon S pstr (Or.inr hcp)
      · rw [isValid_mk S pstr hcS hcp]
        rcases hid with h16 | hb
        · rw [if_pos h16]
        · by_cases h16 : S.length ≠ 16
          · rw [if_pos h16]
          · rw [if_neg h16, if_pos hb]

theorem c6_witness :
    IsValidOnionMultiAddr (mkOnionAddr (strChars "abcdefghijklmnop") (natToStr 80)) = true ∧
    IsValidOnionMultiAddr (mkOnionAddr (strChars "abcdefghijklmnop") (natToStr 0)) = false :=
  ⟨(c6_validator_rules (strChars "abcdefghijklmnop") [] 80).1 (by decide) (by decide)
      (by decide) (by decide),
   (c6_validator_rules (strChars "abcdefghijklmnop") [] 0).2.1⟩

/-- C7: a multiaddr with zero or two-or-more addressing components, or
a single component of a non-onion kind, fails validation regardless of
the component's value. -/
theorem c7_component_shape_rejected (a : Multiaddr) :
    (a.length ≠ 1 → IsValidOnionMultiAddr a = false) ∧
    (∀ comp : Component, a = [comp] → comp.code ≠ P_ONION →
      IsValidOnionMultiAddr a = false) := by
  constructor
  · intro h
    have hlen : (protocols a).length ≠ 1 := by
      rw [protocols, List.length_map]
      exact h
    rw [IsValidOnionMultiAddr]
    unfold isValidOnionMultiAddrE
    rw [if_pos hlen]
  · intro comp ha hcode
    subst ha
    have hname : protocolName ((protocols [comp]).headD 0) ≠ "onion" := by
      simp only [protocols, List.map_cons, List.map_nil, List.headD_cons]
      exact protocolName_ne comp.code hcode
    rw [IsValidOnionMultiAddr]
    unfold isValidOnionMultiAddrE
    rw [if_neg (by simp [protocols]), if_pos hname]

theorem c7_witness :
    IsValidOnionMultiAddr [] = false ∧
      IsValidOnionMultiAddr [⟨6, strChars "80"⟩] = false :=
  ⟨(c7_component_shape_rejected []).1 (by decide),
   (c7_component_shape_rejected [⟨6, strChars "80"⟩]).2 ⟨6, strChars "80"⟩ rfl (by decide)⟩

/-- C8: with service-only policy `CanDial` accepts exactly the valid
onion service addresses; with mixed policy exactly the valid onion
service addresses together with mafmt-TCP addresses. -/
theorem c8_candial_policy (t : TransportState) (a : Multiaddr) :
    (t.onlyOnion = true → (CanDial t a = true ↔ IsValidOnionMultiAddr a = true)) ∧
    (t.onlyOnion = false →
      (CanDial t a = true ↔
        (IsValidOnionMultiAddr a = true ∨ tcpMatches a = true))) := by
  constructor
  · intro h
    rw [CanDial, h]
    simp
  · intro h
    rw [CanDial, h]
    simp

theorem c8_witness : CanDial tMixedW tcpAddrW = true :=
  ((c8_candial_policy tMixedW tcpAddrW).2 rfl).mpr (Or.inr rfl)

/-- C9: every `OnionConn` that `Dial` builds stores the pointer
`&t.laddr` to the transport's single mutable local-address slot: its
local multiaddr is nil while `Listen` was never called, and a
successful `Listen` afterwards changes what this existing connection
reports. -/
theorem c9_dial_conn_aliases_laddr (env : DialEnv) (t : TransportState)
    (ctxCancelled : Bool) (raddr : Multiaddr) (c : OnionConn)
    (h : (Dial env t ctxCancelled raddr).connBuilt = some c) :
    c.laddr = AddrPtr.transportSlot ∧
    (t.laddr = none → c.LocalMultiaddr t = none) ∧
    (∀ (env' : ListenEnv) (t0 : TransportState) (laddr' : Multiaddr)
        (l' : OnionListener) (t' : TransportState) (b : Bool),
      Listen env' t0 laddr' = (.ok (l', t'), b) →
      c.LocalMultiaddr t' = some laddr') := by
  have hslot := dial_connBuilt_slot env t ctxCancelled raddr c h
  refine ⟨hslot, ?_, ?_⟩
  · intro hn
    unfold OnionConn.LocalMultiaddr
    rw [hslot, hn]
  · intro env' t0 laddr' l' t' b hl
    obtain ⟨_, _, ht', _⟩ := listen_ok_shape env' t0 laddr' l' t' b hl
    unfold OnionConn.LocalMultiaddr
    rw [hslot, ht']

theorem c9_witness :
    connW9.laddr = AddrPtr.transportSlot ∧
    connW9.LocalMultiaddr tW4 = none ∧
    connW9.LocalMultiaddr tW9' = some laddrW1 := by
  have h := c9_dial_conn_aliases_laddr dEnvW9 tW4 false raddrC3 connW9 rfl
  exact ⟨h.1, h.2.1 rfl, h.2.2 lisEnvW tW1 laddrW1 listW9 tW9' true rfl⟩

/-- C10 (code evaluation): the validator is not effect-free — on an
address whose identifier is not 16 characters long it writes the
identifier to standard output (`fmt.Println(split[0])`); on this input
the recorded output is nonempty. -/
theorem c10_validator_effect :
    (isValidOnionMultiAddrE c10Addr).2 = [strChars "abc"] := rfl

end OnionTransportSpec
